import Mathlib

/-!
Verification of the HubSpot deal-analysis extension's deal-context
aggregation pipeline (`src/sidepanel.js`): a shallow embedding of
`HubSpotClient` (fetch / getAssociations / getObjectBatch / engagement
aggregation), the text-cleaning utility `stripHtml`, URL extraction and
collection (`extractUrlsFromContent`, `collectAllUrls`), and the document
assembler `formatDealForClaude`, together with theorems checking the
specification's claims about them.

JavaScript strings are modelled as Lean `String`; JS truthiness on
possibly-absent string properties is modelled by `Option String` together
with `jsOr` (absent or empty string is falsy).  Regex-based text rewriting
is modelled by explicit left-to-right scanners with the same match
semantics as the concrete regular expressions in the source.
-/

namespace Sidepanel

/-! ### JS-string basics -/

/-- The whitespace class used by JS `\s` / `trim` on the characters that can
actually occur here (ASCII whitespace plus NBSP, which `&nbsp;` decodes to). -/
def jsWs (c : Char) : Bool :=
  c = ' ' || c = '\t' || c = '\n' || c = '\r' || c = '\x0b' || c = '\x0c' || c = '\u00a0' ||
  c = '\u2028' || c = '\u2029'

/-- ECMAScript LineTerminator (what multiline `^` / `$` anchor to and `.` excludes). -/
def isLineTerm (c : Char) : Bool :=
  c = '\n' || c = '\r' || c = '\u2028' || c = '\u2029'

/-- JS `a || b` for a possibly-absent string property: absent and `""` are falsy. -/
def jsOr (o : Option String) (d : String) : String :=
  match o with
  | none => d
  | some s => if s = "" then d else s

/-- JS `a || b` on two strings (`""` is falsy). -/
def jsOrS (a b : String) : String :=
  if a = "" then b else a

/-- JS `String.prototype.trim` (over the `jsWs` whitespace class). -/
def jsTrim (s : String) : String :=
  String.mk (((s.data.dropWhile jsWs).reverse.dropWhile jsWs).reverse)

/-- JS `String.prototype.includes` (substring test). -/
def strContains (s pat : String) : Bool :=
  s.data.tails.any (fun t => pat.data.isPrefixOf t)

/-- JS `String.prototype.toLowerCase` on the ASCII range the classifier's
host fragments live in. -/
def jsToLower (s : String) : String :=
  String.mk (s.data.map (fun c =>
    if 'A' ≤ c && c ≤ 'Z' then Char.ofNat (c.toNat + 32) else c))

/-- Regex `\w` (word character). -/
def isWordChar (c : Char) : Bool :=
  (('a' ≤ c && c ≤ 'z') || ('A' ≤ c && c ≤ 'Z') || ('0' ≤ c && c ≤ '9') || c = '_')

/-- Regex `\d`. -/
def isDigitChar (c : Char) : Bool :=
  '0' ≤ c && c ≤ '9'

/-! ### JS number parsing -/

/-- Digits-to-Nat (decimal). -/
def natOfDigits (ds : List Char) : Nat :=
  ds.foldl (fun n c => n * 10 + (c.toNat - '0'.toNat)) 0

/-- JS `parseInt(s)` (radix 10 unless the string carries an `0x` marker):
skip leading whitespace, optional sign, then the maximal run of digits;
`none` models `NaN`. -/
def parseIntJS (s : String) : Option Int :=
  let cs := s.data.dropWhile jsWs
  let core : List Char → Option Nat := fun cs =>
    match cs with
    | '0' :: 'x' :: rest =>
      let hs := rest.takeWhile (fun c =>
        isDigitChar c || ('a' ≤ c && c ≤ 'f') || ('A' ≤ c && c ≤ 'F'))
      if hs.isEmpty then none
      else some (hs.foldl (fun n c =>
        n * 16 + (if isDigitChar c then c.toNat - '0'.toNat
                  else if 'a' ≤ c && c ≤ 'f' then c.toNat - 'a'.toNat + 10
                  else c.toNat - 'A'.toNat + 10)) 0)
    | '0' :: 'X' :: rest =>
      let hs := rest.takeWhile (fun c =>
        isDigitChar c || ('a' ≤ c && c ≤ 'f') || ('A' ≤ c && c ≤ 'F'))
      if hs.isEmpty then none
      else some (hs.foldl (fun n c =>
        n * 16 + (if isDigitChar c then c.toNat - '0'.toNat
                  else if 'a' ≤ c && c ≤ 'f' then c.toNat - 'a'.toNat + 10
                  else c.toNat - 'A'.toNat + 10)) 0)
    | _ =>
      let ds := cs.takeWhile isDigitChar
      if ds.isEmpty then none else some (natOfDigits ds)
  match cs with
  | '-' :: rest => (core rest).map (fun n => -(n : Int))
  | '+' :: rest => (core rest).map (fun n => (n : Int))
  | _ => (core cs).map (fun n => (n : Int))

/-- JS `parseFloat(s)` restricted to finite decimal notation
(optional sign, digits, fraction, exponent); `none` models `NaN`.
The binary-float rounding JS performs is immaterial at the precision the
pipeline's call-duration strings use, so the value is kept exact. -/
def parseFloatJS (s : String) : Option Rat :=
  let cs := s.data.dropWhile jsWs
  let signed : List Char → Option Rat × Bool := fun cs =>
    let (neg, cs) := match cs with
      | '-' :: rest => (true, rest)
      | '+' :: rest => (false, rest)
      | _ => (false, cs)
    let intPart := cs.takeWhile isDigitChar
    let cs1 := cs.drop intPart.length
    let (fracPart, cs2) := match cs1 with
      | '.' :: rest => (rest.takeWhile isDigitChar, rest.drop ((rest.takeWhile isDigitChar).length))
      | _ => ([], cs1)
    if intPart.isEmpty && fracPart.isEmpty then (none, neg)
    else
      let mant : Rat :=
        (natOfDigits intPart : Rat) + (natOfDigits fracPart : Rat) / ((10 : Rat) ^ fracPart.length)
      let expo : Int := match cs2 with
        | 'e' :: rest =>
          (match rest with
           | '-' :: ds => if (ds.takeWhile isDigitChar).isEmpty then 0
                          else -(natOfDigits (ds.takeWhile isDigitChar) : Int)
           | '+' :: ds => if (ds.takeWhile isDigitChar).isEmpty then 0
                          else (natOfDigits (ds.takeWhile isDigitChar) : Int)
           | ds => if (ds.takeWhile isDigitChar).isEmpty then 0
                   else (natOfDigits (ds.takeWhile isDigitChar) : Int))
        | 'E' :: rest =>
          (match rest with
           | '-' :: ds => if (ds.takeWhile isDigitChar).isEmpty then 0
                          else -(natOfDigits (ds.takeWhile isDigitChar) : Int)
           | '+' :: ds => if (ds.takeWhile isDigitChar).isEmpty then 0
                          else (natOfDigits (ds.takeWhile isDigitChar) : Int)
           | ds => if (ds.takeWhile isDigitChar).isEmpty then 0
                   else (natOfDigits (ds.takeWhile isDigitChar) : Int))
        | _ => 0
      (some (mant * (10 : Rat) ^ expo), neg)
  match signed cs with
  | (none, _) => none
  | (some q, neg) => some (if neg then -q else q)

/-! ### Epoch-millisecond formatting (`new Date(ms).toISOString()`) -/

/-- Zero-padded decimal of fixed minimum width. -/
def padNum (w : Nat) (n : Nat) : String :=
  let s := toString n
  String.mk (List.replicate (w - s.length) '0') ++ s

/-- Civil date (year, month, day) from days since 1970-01-01
(Gregorian, the classic era-based algorithm). -/
def civilFromDays (z : Int) : Int × Nat × Nat :=
  let z := z + 719468
  let era := Int.fdiv z 146097
  let doe := (z - era * 146097).toNat
  let yoe := (doe - doe / 1460 + doe / 36524 - doe / 146096) / 365
  let doy := doe - (365 * yoe + yoe / 4 - yoe / 100)
  let mp := (5 * doy + 2) / 153
  let d := doy - (153 * mp + 2) / 5 + 1
  let m := if mp < 10 then mp + 3 else mp - 9
  (era * 400 + (yoe : Int) + (if m ≤ 2 then 1 else 0), m, d)

/-- `new Date(ms).toISOString()` for an in-range epoch-millisecond value. -/
def toISOString (t : Int) : String :=
  let days := Int.fdiv t 86400000
  let msOfDay := (t - days * 86400000).toNat
  let (y, m, d) := civilFromDays days
  let yearStr :=
    if 0 ≤ y && y ≤ 9999 then padNum 4 y.toNat
    else if y < 0 then "-" ++ padNum 6 (-y).toNat
    else "+" ++ padNum 6 y.toNat
  yearStr ++ "-" ++ padNum 2 m ++ "-" ++ padNum 2 d ++ "T" ++
    padNum 2 (msOfDay / 3600000) ++ ":" ++ padNum 2 (msOfDay % 3600000 / 60000) ++ ":" ++
    padNum 2 (msOfDay % 60000 / 1000) ++ "." ++ padNum 3 (msOfDay % 1000) ++ "Z"

/-- `s.replace('T', ' ')` — JS `replace` with a string pattern replaces only
the first occurrence. -/
def replaceFirstT (s : String) : String :=
  match s.data.span (fun c => c ≠ 'T') with
  | (pre, 'T' :: post) => String.mk (pre ++ ' ' :: post)
  | _ => s

/-- `formatTimestamp(ts)` from sidepanel.js: falsy input gives "Unknown date";
a parseable epoch value is rendered `toISOString().slice(0, 16).replace('T', ' ')`;
an unparseable or out-of-range value makes `toISOString` throw, and the catch
returns `String(ts)`. -/
def formatTimestamp (ts : Option String) : String :=
  match ts with
  | none => "Unknown date"
  | some s =>
    if s = "" then "Unknown date"
    else
      match parseIntJS s with
      | none => s
      | some n =>
        if n.natAbs ≤ 8640000000000000 then
          replaceFirstT (String.mk ((toISOString n).data.take 16))
        else s

/-! ### Regex-replacement scanner

`String.prototype.replace(regex-with-g, repl)` scans the subject left to
right: at each position it attempts the pattern (for multiline `^`-anchored
patterns only at the start of a line), emits the replacement on a match and
resumes immediately after the matched text, otherwise copies one character.
`scanRep` implements exactly that, with one `step` function per concrete
regex; every step returns the replacement and the unconsumed remainder. -/

def scanRep (step : Bool → List Char → Option (List Char × List Char)) :
    Nat → Bool → List Char → List Char
  | 0, _, cs => cs
  | _ + 1, _, [] => []
  | fuel + 1, ls, c :: cs =>
    match step ls (c :: cs) with
    | some (rep, rest) =>
      let len := (c :: cs).length - rest.length
      if len = 0 then c :: scanRep step fuel (isLineTerm c) cs
      else rep ++ scanRep step fuel
        (match ((c :: cs).take len).getLast? with
         | some lc => isLineTerm lc
         | none => false) rest
    | none => c :: scanRep step fuel (isLineTerm c) cs

def runScan (step : Bool → List Char → Option (List Char × List Char)) (s : String) : String :=
  String.mk (scanRep step (s.data.length + 1) true s.data)

/-- `/<[^>]+>/g → ' '`: a `<`, one or more non-`>` characters, then `>`. -/
def tagStep (_ : Bool) (cs : List Char) : Option (List Char × List Char) :=
  match cs with
  | '<' :: rest =>
    let body := rest.takeWhile (fun c => c ≠ '>')
    match rest.drop body.length with
    | '>' :: after => if body.isEmpty then none else some ([' '], after)
    | _ => none
  | _ => none

/-- Replacement for an out-of-range or surrogate numeric character reference. -/
def decodeEntityChar (n : Nat) : Char :=
  if n = 0 || (55296 ≤ n && n ≤ 57343) || 1114111 < n then '�' else Char.ofNat n

def namedEntities : List (List Char × Char) :=
  [("amp".data, '&'), ("lt".data, '<'), ("gt".data, '>'), ("quot".data, '"'),
   ("apos".data, Char.ofNat 39), ("nbsp".data, '\u00A0')]

/-- One HTML character reference, as the DOM (`textarea.innerHTML`) decodes it:
`&#NNN;` / `&#xHH;` numeric references and the named references that occur in
CRM text (the full HTML named-entity table is much larger; unused names are
left literal, which is also what the DOM does for unknown names). -/
def entityStep (_ : Bool) (cs : List Char) : Option (List Char × List Char) :=
  match cs with
  | '&' :: '#' :: rest =>
    let hexCase : List Char → Option (List Char × List Char) := fun r =>
      let hs := r.takeWhile (fun c =>
        isDigitChar c || ('a' ≤ c && c ≤ 'f') || ('A' ≤ c && c ≤ 'F'))
      if hs.isEmpty then none
      else
        match r.drop hs.length with
        | ';' :: after =>
          some ([decodeEntityChar (hs.foldl (fun n c =>
            n * 16 + (if isDigitChar c then c.toNat - '0'.toNat
                      else if 'a' ≤ c && c ≤ 'f' then c.toNat - 'a'.toNat + 10
                      else c.toNat - 'A'.toNat + 10)) 0)], after)
        | _ => none
    match rest with
    | 'x' :: r => hexCase r
    | 'X' :: r => hexCase r
    | _ =>
      let ds := rest.takeWhile isDigitChar
      if ds.isEmpty then none
      else
        match rest.drop ds.length with
        | ';' :: after => some ([decodeEntityChar (natOfDigits ds)], after)
        | _ => none
  | '&' :: rest =>
    let nm := rest.takeWhile (fun c => ('a' ≤ c && c ≤ 'z') || ('A' ≤ c && c ≤ 'Z'))
    match rest.drop nm.length with
    | ';' :: after =>
      (namedEntities.find? (fun p => p.1 == nm)).map (fun p => ([p.2], after))
    | _ => none
  | _ => none

/-- `decodeHtmlEntities` from sidepanel.js (DOM-based entity decoding). -/
def decodeHtmlEntities (text : String) : String :=
  runScan entityStep text

/-- Consume a literal `http://` or `https://` scheme (regex `https?:\/\/`). -/
def urlScheme (cs : List Char) : Option (List Char × List Char) :=
  match cs with
  | 'h' :: 't' :: 't' :: 'p' :: 's' :: ':' :: '/' :: '/' :: rest => some ("https://".data, rest)
  | 'h' :: 't' :: 't' :: 'p' :: ':' :: '/' :: '/' :: rest => some ("http://".data, rest)
  | _ => none

/-- `/<https?:\/\/[^>]+>/g → ''`. -/
def wrappedUrlStep (_ : Bool) (cs : List Char) : Option (List Char × List Char) :=
  match cs with
  | '<' :: rest =>
    match urlScheme rest with
    | some (_, rest2) =>
      let body := rest2.takeWhile (fun c => c ≠ '>')
      if body.isEmpty then none
      else
        match rest2.drop body.length with
        | '>' :: after => some ([], after)
        | _ => none
    | none => none
  | _ => none

/-- `/<(https?:\/\/[^>]+)>/g → '$1'` (unwrap to the captured URL). -/
def unwrapUrlStep (_ : Bool) (cs : List Char) : Option (List Char × List Char) :=
  match cs with
  | '<' :: rest =>
    match urlScheme rest with
    | some (sch, rest2) =>
      let body := rest2.takeWhile (fun c => c ≠ '>')
      if body.isEmpty then none
      else
        match rest2.drop body.length with
        | '>' :: after => some (sch ++ body, after)
        | _ => none
    | none => none
  | _ => none

/-- `/https?:\/\/\S+/g → ''`. -/
def bareUrlStep (_ : Bool) (cs : List Char) : Option (List Char × List Char) :=
  match urlScheme cs with
  | some (_, rest) =>
    let body := rest.takeWhile (fun c => !jsWs c)
    if body.isEmpty then none else some ([], rest.drop body.length)
  | none => none

/-- Trailing `\s*$` of a multiline pattern: greedily consume whitespace up to
end-of-string, or up to (not including) the last `\n` of the whitespace run. -/
def wsToLineEnd (cs : List Char) : Option (List Char × List Char) :=
  let ws := cs.takeWhile jsWs
  let rest := cs.drop ws.length
  if rest.isEmpty then some (ws, [])
  else
    let revNoNl := ws.reverse.takeWhile (fun c => !isLineTerm c)
    if revNoNl.length = ws.length then none
    else
      let k := ws.length - revNoNl.length - 1
      some (ws.take k, ws.drop k ++ rest)

def isLocalChar (c : Char) : Bool :=
  isWordChar c || c = '.' || c = '-'

/-- `/^\s*[\w.-]+@[\w.-]+\.\w+\s*$/gm → ''` (signature e-mail lines). -/
def emailLineStep (lineStart : Bool) (cs : List Char) : Option (List Char × List Char) :=
  if !lineStart then none else
  let ws := cs.takeWhile jsWs
  let r1 := cs.drop ws.length
  let localPart := r1.takeWhile isLocalChar
  if localPart.isEmpty then none else
  match r1.drop localPart.length with
  | '@' :: r2 =>
    let domain := r2.takeWhile isLocalChar
    if domain.isEmpty then none else
    let lastSeg := domain.reverse.takeWhile (fun c => c ≠ '.')
    if lastSeg.isEmpty then none
    else if !(lastSeg.all isWordChar) then none
    else if domain.length < lastSeg.length + 2 then none
    else
      match wsToLineEnd (r2.drop domain.length) with
      | some (_, remaining) => some ([], remaining)
      | none => none
  | _ => none

def phoneSep (c : Char) : Bool :=
  c = '-' || c = '.' || jsWs c

/-- Exactly `n` leading digits (`\d{n}` followed by a non-digit-insensitive
continuation); returns the remainder. -/
def takeDigits (n : Nat) (cs : List Char) : Option (List Char) :=
  if (cs.take n).length = n && (cs.take n).all isDigitChar then some (cs.drop n) else none

/-- `/^\s*\(?\d{3}\)?[-.\s]?\d{3}[-.\s]?\d{4}\s*$/gm → ''` (phone lines). -/
def phoneLineStep (lineStart : Bool) (cs : List Char) : Option (List Char × List Char) :=
  if !lineStart then none else
  let ws := cs.takeWhile jsWs
  let r1 := cs.drop ws.length
  let r2 := match r1 with | '(' :: r => r | _ => r1
  match takeDigits 3 r2 with
  | none => none
  | some r3 =>
    let r4 := match r3 with | ')' :: r => r | _ => r3
    let r5 := match r4 with
      | c :: r => if phoneSep c then r else r4
      | [] => r4
    match takeDigits 3 r5 with
    | none => none
    | some r6 =>
      let r7 := match r6 with
        | c :: r => if phoneSep c then r else r6
        | [] => r6
      match takeDigits 4 r7 with
      | none => none
      | some r8 =>
        match wsToLineEnd r8 with
        | some (_, remaining) => some ([], remaining)
        | none => none

/-- `\s+` — one or more whitespace characters. -/
def wsPlus (cs : List Char) : Option (List Char) :=
  let ws := cs.takeWhile jsWs
  if ws.isEmpty then none else some (cs.drop ws.length)

/-- `\w{3},`. -/
def word3Comma (cs : List Char) : Option (List Char) :=
  match cs with
  | a :: b :: c :: ',' :: rest =>
    if isWordChar a && isWordChar b && isWordChar c then some rest else none
  | _ => none

/-- `\w{3}`. -/
def word3 (cs : List Char) : Option (List Char) :=
  match cs with
  | a :: b :: c :: rest =>
    if isWordChar a && isWordChar b && isWordChar c then some rest else none
  | _ => none

/-- `\d{1,2},` (greedy day-of-month then comma). -/
def digits12Comma (cs : List Char) : Option (List Char) :=
  match cs with
  | a :: b :: c :: rest =>
    if isDigitChar a && isDigitChar b && c = ',' then some rest
    else if isDigitChar a && b = ',' then some (c :: rest)
    else none
  | a :: b :: rest =>
    if isDigitChar a && b = ',' then some rest else none
  | _ => none

/-- `[\d:]+\s*[AP]M`. -/
def timeAmPm (cs : List Char) : Option (List Char) :=
  let t := cs.takeWhile (fun c => isDigitChar c || c = ':')
  if t.isEmpty then none else
  let r := (cs.drop t.length)
  let r2 := r.drop ((r.takeWhile jsWs).length)
  match r2 with
  | 'A' :: 'M' :: rest => some rest
  | 'P' :: 'M' :: rest => some rest
  | _ => none

/-- Remainder after the first occurrence of a literal (lazy `.*?lit`). -/
def findLiteral (pat : List Char) : List Char → Option (List Char)
  | [] => if pat.isEmpty then some [] else none
  | c :: cs =>
    if pat.isPrefixOf (c :: cs) then some ((c :: cs).drop pat.length)
    else findLiteral pat cs

/-- `/On\s+\w{3},\s+\w{3}\s+\d{1,2},\s+\d{4}\s+at\s+[\d:]+\s*[AP]M.*?wrote:.*/gs → ''`
(quoted-reply header; with the `s` flag the final `.*` runs to end of text). -/
def quotedReplyStep (_ : Bool) (cs : List Char) : Option (List Char × List Char) :=
  match cs with
  | 'O' :: 'n' :: r0 =>
    match wsPlus r0 with
    | none => none
    | some r1 =>
      match word3Comma r1 with
      | none => none
      | some r2 =>
        match wsPlus r2 with
        | none => none
        | some r3 =>
          match word3 r3 with
          | none => none
          | some r4 =>
            match wsPlus r4 with
            | none => none
            | some r5 =>
              match digits12Comma r5 with
              | none => none
              | some r6 =>
                match wsPlus r6 with
                | none => none
                | some r7 =>
                  match takeDigits 4 r7 with
                  | none => none
                  | some r8 =>
                    match wsPlus r8 with
                    | none => none
                    | some r9 =>
                      match r9 with
                      | 'a' :: 't' :: r10 =>
                        match wsPlus r10 with
                        | none => none
                        | some r11 =>
                          match timeAmPm r11 with
                          | none => none
                          | some r12 =>
                            match findLiteral "wrote:".data r12 with
                            | none => none
                            | some _ => some ([], [])
                      | _ => none
  | _ => none

/-- `/^\s*>.*$/gm → ''` (quote-marker lines). -/
def quoteLineStep (lineStart : Bool) (cs : List Char) : Option (List Char × List Char) :=
  if !lineStart then none else
  let ws := cs.takeWhile jsWs
  match cs.drop ws.length with
  | '>' :: rest => some ([], rest.dropWhile (fun c => !isLineTerm c))
  | _ => none

def headerKeywords : List (List Char) :=
  ["From".data, "Sent".data, "To".data, "Cc".data, "Subject".data, "Date".data]

/-- `/^\s*\*?(From|Sent|To|Cc|Subject|Date):\*?\s*.*$/gm → ''` (header lines). -/
def headerLineStep (lineStart : Bool) (cs : List Char) : Option (List Char × List Char) :=
  if !lineStart then none else
  let ws := cs.takeWhile jsWs
  let r1 := cs.drop ws.length
  let r2 := match r1 with | '*' :: r => r | _ => r1
  match headerKeywords.findSome? (fun kw =>
      if kw.isPrefixOf r2 then some (r2.drop kw.length) else none) with
  | none => none
  | some r3 =>
    match r3 with
    | ':' :: r4 =>
      let r5 := match r4 with | '*' :: r => r | _ => r4
      let r6 := r5.drop ((r5.takeWhile jsWs).length)
      some ([], r6.dropWhile (fun c => !isLineTerm c))
    | _ => none

/-- `/\n{3,}/g → '\n\n'`. -/
def nl3Step (_ : Bool) (cs : List Char) : Option (List Char × List Char) :=
  match cs with
  | '\n' :: _ =>
    let run := cs.takeWhile (fun c => c = '\n')
    if 3 ≤ run.length then some (['\n', '\n'], cs.drop run.length) else none
  | _ => none

/-- `/[ \t]+/g → ' '`. -/
def hwsStep (_ : Bool) (cs : List Char) : Option (List Char × List Char) :=
  match cs with
  | c :: _ =>
    if c = ' ' || c = '\t' then
      some ([' '], cs.dropWhile (fun c => c = ' ' || c = '\t'))
    else none
  | [] => none

/-- `/\n\s*\n/g → '\n\n'` (greedy: the match runs to the last `\n` of the
whitespace run following the first `\n`). -/
def blankStep (_ : Bool) (cs : List Char) : Option (List Char × List Char) :=
  match cs with
  | '\n' :: rest =>
    let ws := rest.takeWhile jsWs
    let revNoNl := ws.reverse.takeWhile (fun c => c ≠ '\n')
    if revNoNl.length = ws.length then none
    else
      let k := ws.length - revNoNl.length
      some (['\n', '\n'], ws.drop k ++ rest.drop ws.length)
  | _ => none

/-- `stripHtml(htmlContent, preserveUrls)` from sidepanel.js: the fixed
pipeline of regex replacements, in source order, then trim. -/
def stripHtml (htmlContent : Option String) (preserveUrls : Bool := true) : String :=
  match htmlContent with
  | none => ""
  | some h =>
    if h = "" then ""
    else
      let c := runScan tagStep h
      let c := decodeHtmlEntities c
      let c := if !preserveUrls then runScan bareUrlStep (runScan wrappedUrlStep c)
               else runScan unwrapUrlStep c
      let c := runScan emailLineStep c
      let c := runScan phoneLineStep c
      let c := runScan quotedReplyStep c
      let c := runScan quoteLineStep c
      let c := runScan headerLineStep c
      let c := runScan nl3Step c
      let c := runScan hwsStep c
      let c := runScan blankStep c
      jsTrim c

/-! ### URL extraction (`extractUrlsFromContent`) -/

/-- URL-body character class `[^\s<>"']`. -/
def urlBodyChar (c : Char) : Bool :=
  !jsWs c && c ≠ '<' && c ≠ '>' && c ≠ '"' && c ≠ Char.ofNat 39

/-- One match of `/https?:\/\/[^\s<>"']+[^\s<>"'.,]/` at the current position:
the scheme, then the maximal body run shortened (greedily, by backtracking the
final-character class) past any trailing `.`/`,`; at least two body characters. -/
def urlMatch (cs : List Char) : Option (List Char × List Char) :=
  match urlScheme cs with
  | none => none
  | some (sch, rest) =>
    let run := rest.takeWhile urlBodyChar
    let keep := (run.reverse.dropWhile (fun c => c = '.' || c = ',')).reverse
    if keep.length < 2 then none
    else some (sch ++ keep, rest.drop keep.length)

/-- `content.match(urlPattern)`: left-to-right scan, resuming after each match. -/
def urlScan : Nat → List Char → List String
  | 0, _ => []
  | _ + 1, [] => []
  | fuel + 1, c :: cs =>
    match urlMatch (c :: cs) with
    | some (m, rest) => String.mk m :: urlScan fuel rest
    | none => urlScan fuel cs

/-- `url.replace(/[.,;:]+$/, '')`. -/
def stripTrailingPunct (u : String) : String :=
  String.mk ((u.data.reverse.dropWhile (fun c => c = '.' || c = ',' || c = ';' || c = ':')).reverse)

/-- `new Set(urls)` iterated in insertion order: keep first occurrences. -/
def dedupKeepFirst (l : List String) : List String :=
  l.foldl (fun acc x => if x ∈ acc then acc else acc ++ [x]) []

/-- `extractUrlsFromContent(content)` from sidepanel.js. -/
def extractUrlsFromContent (content : String) : List String :=
  if content = "" then []
  else dedupKeepFirst ((urlScan (content.data.length + 1) content.data).map stripTrailingPunct)

/-! ### Record model

HubSpot objects arrive as JSON records carrying a `properties` bag of
optional string-valued fields (the union of every property name the client
requests); `_engagement_type` is the tag `getAllEngagements` stamps on
engagement records. -/

structure Props where
  dealname : Option String := none
  amount : Option String := none
  dealstage : Option String := none
  pipeline : Option String := none
  createdate : Option String := none
  closedate : Option String := none
  description : Option String := none
  hubspot_owner_id : Option String := none
  firstname : Option String := none
  lastname : Option String := none
  email : Option String := none
  phone : Option String := none
  company : Option String := none
  name : Option String := none
  domain : Option String := none
  industry : Option String := none
  hs_timestamp : Option String := none
  hs_email_subject : Option String := none
  hs_email_text : Option String := none
  hs_email_html : Option String := none
  hs_email_direction : Option String := none
  hs_email_from_email : Option String := none
  hs_email_to_email : Option String := none
  hs_note_body : Option String := none
  hs_body_preview : Option String := none
  hs_call_body : Option String := none
  hs_call_title : Option String := none
  hs_call_duration : Option String := none
  hs_meeting_title : Option String := none
  hs_meeting_body : Option String := none
  hs_meeting_outcome : Option String := none
  hs_task_subject : Option String := none
  hs_task_status : Option String := none
  hs_task_body : Option String := none
deriving DecidableEq, Repr

/-- A fetched CRM object: `id` plus the `properties` bag; `etype` models the
`_engagement_type` field the aggregator assigns. -/
structure HObj where
  id : Option String := none
  etype : Option String := none
  properties : Props := {}
deriving DecidableEq, Repr

/-! ### `collectAllUrls` -/

/-- The per-category (content, context-label) selection inside the
`collectAllUrls` loop: content is the record's free-text body and the label
is built from the category, title/subject and formatted timestamp. -/
def engContext (eng : HObj) : String × String :=
  let engType := jsOr eng.etype "unknown"
  let props := eng.properties
  let timestamp := formatTimestamp props.hs_timestamp
  if engType = "emails" then
    (jsOr props.hs_email_text (jsOr props.hs_email_html ""),
     "Email: " ++ jsOr props.hs_email_subject "(No subject)" ++ " (" ++ timestamp ++ ")")
  else if engType = "notes" then
    (jsOr props.hs_note_body "", "Note (" ++ timestamp ++ ")")
  else if engType = "calls" then
    (jsOr props.hs_call_body "",
     "Call: " ++ jsOr props.hs_call_title "Call" ++ " (" ++ timestamp ++ ")")
  else if engType = "meetings" then
    (jsOr props.hs_meeting_body "",
     "Meeting: " ++ jsOr props.hs_meeting_title "Meeting" ++ " (" ++ timestamp ++ ")")
  else if engType = "tasks" then
    (jsOr props.hs_task_body "",
     "Task: " ++ jsOr props.hs_task_subject "Task" ++ " (" ++ timestamp ++ ")")
  else ("", "")

/-- `if (!allUrls[url]) allUrls[url] = []; allUrls[url].push(context)` over a
JS object in insertion order: append the context to the url's entry, creating
the entry at the end on first sight. -/
def addContext : List (String × List String) → String → String → List (String × List String)
  | [], u, c => [(u, [c])]
  | (k, cs) :: rest, u, c =>
    if k = u then (k, cs ++ [c]) :: rest else (k, cs) :: addContext rest u c

/-- Process one engagement record: extract the urls of its (raw) content and
append this record's context label under each. -/
def addRecordUrls (m : List (String × List String)) (eng : HObj) :
    List (String × List String) :=
  (extractUrlsFromContent (engContext eng).1).foldl
    (fun m url => addContext m url (engContext eng).2) m

def collectLoop : List (String × List String) → List HObj → List (String × List String)
  | m, [] => m
  | m, e :: rest => collectLoop (addRecordUrls m e) rest

/-- `collectAllUrls(engagements)` from sidepanel.js. -/
def collectAllUrls (engagements : List HObj) : List (String × List String) :=
  collectLoop [] engagements

/-- Context list stored for a url (`allUrls[url]`, `[]` when absent). -/
def ctxOf (m : List (String × List String)) (u : String) : List String :=
  ((m.find? (fun p => p.1 == u)).map (fun p => p.2)).getD []

/-! ### Document assembly (`formatDealForClaude`) -/

/-- Sort key of the engagement sort: `parseInt(a.properties?.hs_timestamp) || 0`
(absent property or unparseable string both contribute `NaN`, which `|| 0`
turns into `0`). -/
def sortKey (eng : HObj) : Int :=
  match eng.properties.hs_timestamp with
  | none => 0
  | some s => (parseIntJS s).getD 0

/-- `[...engagements].sort((a, b) => tsA - tsB)`.  `Array.prototype.sort` is
required to be stable (ES2019) and the comparator is a consistent total
preorder on the key, so the call is observationally a stable merge sort with
`le a b := sortKey a ≤ sortKey b`. -/
def sortEngagements (engagements : List HObj) : List HObj :=
  engagements.mergeSort (fun a b => sortKey a ≤ sortKey b)

/-- Header block of the assembled document (lines 1296–1307 of sidepanel.js):
name with an "Unknown Deal" default, the four `'N/A'`-defaulted scalars, a
description line only when the description is truthy, then a blank line. -/
def dealHeaderLines (deal : HObj) : List String :=
  let props := deal.properties
  let dealName := jsOr props.dealname "Unknown Deal"
  ["# Deal: " ++ dealName,
   "\n**Amount:** " ++ jsOr props.amount "N/A",
   "**Stage:** " ++ jsOr props.dealstage "N/A",
   "**Created:** " ++ jsOr props.createdate "N/A",
   "**Close Date:** " ++ jsOr props.closedate "N/A"]
  ++ (match props.description with
      | some d => if d = "" then [] else ["**Description:** " ++ d]
      | none => [])
  ++ [""]

def contactLine (c : HObj) : String :=
  let cp := c.properties
  let nameRaw := jsTrim (jsOr cp.firstname "" ++ " " ++ jsOr cp.lastname "")
  let name := if nameRaw = "" then "Unknown" else nameRaw
  let email := jsOr cp.email "N/A"
  let company := jsOr cp.company ""
  "- " ++ name ++ " (" ++ email ++ ")" ++ (if company = "" then "" else " - " ++ company)

def companyLine (c : HObj) : String :=
  let cp := c.properties
  let name := jsOr cp.name "Unknown"
  let domain := jsOr cp.domain ""
  let industry := jsOr cp.industry ""
  "- **" ++ name ++ "**" ++ (if domain = "" then "" else " (" ++ domain ++ ")") ++
    (if industry = "" then "" else " - " ++ industry)

/-- JS `%` (remainder with truncated quotient) needs truncation toward zero. -/
def ratTrunc (q : Rat) : Int :=
  if 0 ≤ q then Rat.floor q else -(Rat.floor (-q))

/-- `` ` (${Math.floor(parseFloat(d) / 60)}m ${Math.floor(parseFloat(d) % 60)}s)` ``.
`parseFloat` of a non-numeric string gives `NaN`, which `Math.floor` keeps
and template interpolation prints. -/
def callDurationLabel (duration : String) : String :=
  match parseFloatJS duration with
  | none => " (NaNm NaNs)"
  | some q =>
    " (" ++ toString (Rat.floor (q / 60)) ++ "m " ++
      toString (Rat.floor (q - 60 * (ratTrunc (q / 60) : Rat))) ++ "s)"

/-- The category-specific activity-timeline block for one engagement
(unknown categories contribute no lines). -/
def engagementLines (eng : HObj) : List String :=
  let engType := jsOr eng.etype "unknown"
  let props := eng.properties
  let timestamp := formatTimestamp props.hs_timestamp
  if engType = "emails" then
    let subject := jsOr props.hs_email_subject "(No subject)"
    let direction := jsOr props.hs_email_direction ""
    let fromEmail := jsOr props.hs_email_from_email ""
    let toEmail := jsOr props.hs_email_to_email ""
    let body := jsOrS (stripHtml props.hs_email_text true) (stripHtml props.hs_email_html true)
    let dirLabel := if direction = "EMAIL" then "OUTBOUND" else "INBOUND"
    ["### [" ++ timestamp ++ "] EMAIL (" ++ dirLabel ++ ")",
     "**Subject:** " ++ subject,
     "**From:** " ++ fromEmail ++ " -> **To:** " ++ toEmail,
     "\n" ++ body ++ "\n",
     "---"]
  else if engType = "notes" then
    let body := jsOrS (stripHtml props.hs_note_body true) (jsOr props.hs_body_preview "")
    ["### [" ++ timestamp ++ "] NOTE", "\n" ++ body ++ "\n", "---"]
  else if engType = "calls" then
    let title := jsOr props.hs_call_title "Call"
    let duration := jsOr props.hs_call_duration ""
    let body := jsOr props.hs_call_body ""
    let durationStr := if duration = "" then "" else callDurationLabel duration
    ["### [" ++ timestamp ++ "] CALL: " ++ title ++ durationStr]
    ++ (if body = "" then [] else ["\n" ++ stripHtml (some body) true ++ "\n"])
    ++ ["---"]
  else if engType = "meetings" then
    let title := jsOr props.hs_meeting_title "Meeting"
    let body := jsOr props.hs_meeting_body ""
    let outcome := jsOr props.hs_meeting_outcome ""
    ["### [" ++ timestamp ++ "] MEETING: " ++ title]
    ++ (if outcome = "" then [] else ["**Outcome:** " ++ outcome])
    ++ (if body = "" then [] else ["\n" ++ stripHtml (some body) true ++ "\n"])
    ++ ["---"]
  else if engType = "tasks" then
    let subject := jsOr props.hs_task_subject "Task"
    let status := jsOr props.hs_task_status ""
    let body := jsOr props.hs_task_body ""
    ["### [" ++ timestamp ++ "] TASK: " ++ subject ++ " [" ++ status ++ "]"]
    ++ (if body = "" then [] else ["\n" ++ stripHtml (some body) true ++ "\n"])
    ++ ["---"]
  else []

/-- The "Activity Timeline" section: count line then the per-engagement
blocks, in timestamp order. -/
def activityLines (engagements : List HObj) : List String :=
  let sortedEngagements := sortEngagements engagements
  ["## Activity Timeline (Chronological)",
   "*" ++ toString sortedEngagements.length ++ " total activities*\n"]
  ++ (sortedEngagements.map engagementLines).flatten

def docHostFragments : List String :=
  ["docs.google", "drive.google", "notion.so", "dropbox", "sharepoint", "onedrive"]

/-- The three-way partition of collected url entries, in iteration order:
document hosts, the CRM's own host, everything else. -/
def classifyUrls : List (String × List String) →
    List (String × List String) × List (String × List String) × List (String × List String)
  | [] => ([], [], [])
  | e :: rest =>
    let (d, h, o) := classifyUrls rest
    let urlLower := jsToLower e.1
    if docHostFragments.any (fun f => strContains urlLower f) then (e :: d, h, o)
    else if strContains urlLower "hubspot" then (d, e :: h, o)
    else (d, h, e :: o)

/-- The two lines a documents-bucket entry contributes: the url and its
provenance contexts (`slice(0, 3)`, with an ellipsis when more exist). -/
def docUrlEntryLines (e : String × List String) : List String :=
  ["- " ++ e.1,
   "  *Found in: " ++ String.intercalate ", " (e.2.take 3) ++
     (if decide (3 < e.2.length) then "..." else "") ++ "*"]

/-- The "Linked Documents & URLs" section (lines 1395–1440 of sidepanel.js);
empty when no urls were collected.  `Object.keys(collectedUrls).length` is
the entry count (keys are unique). -/
def urlIndexLines (collectedUrls : List (String × List String)) : List String :=
  if collectedUrls.length = 0 then []
  else
    let (docUrls, hubspotUrls, otherUrls) := classifyUrls collectedUrls
    ["\n## Linked Documents & URLs",
     "*" ++ toString collectedUrls.length ++ " unique URLs found in deal activities*\n"]
    ++ (if docUrls.length > 0 then
          ["### Meeting Notes & Documents"] ++ (docUrls.map docUrlEntryLines).flatten
        else [])
    ++ (if hubspotUrls.length > 0 then
          ["\n### HubSpot Links"] ++ hubspotUrls.map (fun e => "- " ++ e.1)
        else [])
    ++ (if otherUrls.length > 0 then
          ["\n### Other Links"] ++ (otherUrls.take 20).map (fun e => "- " ++ e.1)
          ++ (if 20 < otherUrls.length then
                ["*... and " ++ toString (otherUrls.length - 20) ++ " more*"]
              else [])
        else [])
    ++ [""]

/-- `formatDealForClaude(deal, contacts, companies, engagements, collectedUrls)`
from sidepanel.js: header, optional contacts and companies sections, the
chronological activity timeline, and the url index, joined with newlines. -/
def formatDealForClaude (deal : HObj) (contacts companies engagements : List HObj)
    (collectedUrls : List (String × List String)) : String :=
  let lines :=
    dealHeaderLines deal
    ++ (if contacts.length > 0 then
          ["## Associated Contacts"] ++ contacts.map contactLine ++ [""]
        else [])
    ++ (if companies.length > 0 then
          ["## Associated Companies"] ++ companies.map companyLine ++ [""]
        else [])
    ++ activityLines engagements
    ++ urlIndexLines collectedUrls
  String.intercalate "\n" lines

/-! ### The HTTP client (`HubSpotClient`)

A run of the pipeline is modelled in a fetch-trace monad: a computation
takes the list of fetch events performed so far and returns an
`Except`-style result together with the extended trace.  One event is
recorded per network request, exactly where `HubSpotClient.fetch` awaits a
response; a non-ok response makes `fetch` throw
`` `HubSpot API error: ${status}` ``, which aborts the surrounding
`async` control flow just as a thrown `Error` does. -/

structure FetchEvent where
  url : String
  ok : Bool
  status : Nat
deriving DecidableEq, Repr

abbrev Run (α : Type) := List FetchEvent → Except String α × List FetchEvent

def Run.pure (a : α) : Run α := fun tr => (Except.ok a, tr)

def Run.bind (m : Run α) (f : α → Run β) : Run β := fun tr =>
  match m tr with
  | (Except.ok a, tr2) => f a tr2
  | (Except.error e, tr2) => (Except.error e, tr2)

/-- Model-internal failures that have no HTTP response: an unresolvable url
(network error) and pagination fuel running out (the JS loop would simply
still be running). -/
def netErr : String := "model: network error"

def fuelErr : String := "model: out of fuel"

def Run.fail (e : String) : Run α := fun tr => (Except.error e, tr)

/-- An HTTP response as `HubSpotClient.fetch` sees it. -/
structure HttpResp (α : Type) where
  ok : Bool
  status : Nat
  body : α
deriving DecidableEq, Repr

def errMsg (status : Nat) : String := "HubSpot API error: " ++ toString status

/-- `HubSpotClient.fetch`: record the request, then either return the JSON
body or throw `HubSpot API error: <status>` when `!response.ok`. -/
def hsFetch (r : HttpResp α) (url : String) : Run α := fun tr =>
  ((if r.ok then Except.ok r.body else Except.error (errMsg r.status)),
   tr ++ [⟨url, r.ok, r.status⟩])

/-- One association edge of `GET .../associations/<type>` (`toObjectId` may
be absent; `filter(Boolean)` later also drops a zero id). -/
structure AssocEdge where
  toObjectId : Option Nat := none
deriving DecidableEq, Repr

/-- One page of an association listing: `results` (may be absent) and the
`paging.next.link` cursor (absent on the last page). -/
structure AssocPage where
  results : Option (List AssocEdge) := none
  nextLink : Option String := none
deriving DecidableEq, Repr

/-- `data.paging?.next?.link || null` — an empty-string link is falsy. -/
def normLink (o : Option String) : Option String :=
  match o with
  | some s => if s = "" then none else some s
  | none => none

/-- The remote association endpoints: a response per url. -/
abbrev AssocApi := List (String × HttpResp AssocPage)

/-- The `while (nextUrl)` pagination loop of `getAssociations`: fetch the
current url, append `data.results || []`, follow the cursor.  The JS loop
has no bound; `fuel` only caps the modelled recursion and every theorem
supplies enough of it. -/
def getAssocLoop (api : AssocApi) : Nat → Option String → List AssocEdge → Run (List AssocEdge)
  | _, none, acc => Run.pure acc
  | 0, some _, _ => Run.fail fuelErr
  | fuel + 1, some u, acc =>
    match api.lookup u with
    | none => Run.fail netErr
    | some r =>
      Run.bind (hsFetch r u) (fun page =>
        getAssocLoop api fuel (normLink page.nextLink) (acc ++ page.results.getD []))

/-- `HubSpotClient.getAssociations(toObject)`. -/
def getAssociations (api : AssocApi) (startUrl : String) (fuel : Nat) : Run (List AssocEdge) :=
  getAssocLoop api fuel (some startUrl) []

/-- Body of a `batch/read` response (`results` may be absent). -/
structure BatchBody where
  results : Option (List HObj) := none
deriving DecidableEq, Repr

/-- `HubSpotClient.getObjectBatch(objectType, objectIds, properties)`:
an empty id list short-circuits to `[]` without a request; otherwise one
batched POST.  The attribute projection lives in the request payload, which
the response model absorbs. -/
def getObjectBatch (resp : HttpResp BatchBody) (objectType : String) (objectIds : List Nat) :
    Run (List HObj) :=
  if objectIds.isEmpty then Run.pure []
  else
    Run.bind (hsFetch resp ("batch/" ++ objectType)) (fun data =>
      Run.pure (data.results.getD []))

/-- `associations.map(a => a.toObjectId).filter(Boolean)` — drops absent ids
and (JS falsiness) a zero id. -/
def edgeIds (assocs : List AssocEdge) : List Nat :=
  (assocs.map (fun a => a.toObjectId)).filterMap
    (fun o => match o with
              | some n => if n = 0 then none else some n
              | none => none)

/-- The remote environment one analysis run talks to: the single-object deal
endpoint, the association endpoints, and a batch-read endpoint per object
type.  (Within one run each batch endpoint is hit at most once, so keying the
response by object type loses no behaviour.) -/
structure Env where
  dealResp : HttpResp HObj
  assocApi : AssocApi
  batch : String → HttpResp BatchBody

/-- The association-listing url `getAssociations` starts from
(`/crm/v4/objects/deals/{dealId}/associations/{toObject}`). -/
def assocStartUrl (toObject : String) : String :=
  "deals/associations/" ++ toObject

def getDealRun (env : Env) : Run HObj :=
  hsFetch env.dealResp "deals/dealId"

def getContactsRun (env : Env) (fuel : Nat) : Run (List HObj) :=
  Run.bind (getAssociations env.assocApi (assocStartUrl "contacts") fuel) (fun assocs =>
    getObjectBatch (env.batch "contacts") "contacts" (edgeIds assocs))

def getCompaniesRun (env : Env) (fuel : Nat) : Run (List HObj) :=
  Run.bind (getAssociations env.assocApi (assocStartUrl "companies") fuel) (fun assocs =>
    getObjectBatch (env.batch "companies") "companies" (edgeIds assocs))

/-- The fixed engagement catalog of `getAllEngagements` (insertion order of
the `engagementConfig` object literal). -/
def engagementConfig : List (String × List String) :=
  [("emails",
    ["hs_email_subject", "hs_email_text", "hs_email_html", "hs_timestamp",
     "hs_email_direction", "hs_email_from_email", "hs_email_to_email",
     "hs_email_from_firstname", "hs_email_from_lastname"]),
   ("notes", ["hs_note_body", "hs_timestamp", "hubspot_owner_id", "hs_body_preview"]),
   ("calls",
    ["hs_call_body", "hs_call_title", "hs_timestamp", "hs_call_duration",
     "hs_call_direction", "hs_call_status", "hs_call_from_number", "hs_call_to_number",
     "hs_call_recording_url"]),
   ("meetings",
    ["hs_meeting_title", "hs_meeting_body", "hs_timestamp",
     "hs_meeting_start_time", "hs_meeting_end_time", "hs_meeting_outcome"]),
   ("tasks",
    ["hs_task_subject", "hs_task_body", "hs_timestamp",
     "hs_task_status", "hs_task_priority"])]

/-- `d._engagement_type = engType`. -/
def tagEngagement (t : String) (o : HObj) : HObj :=
  { o with etype := some t }

/-- The `for (const [engType, props] of Object.entries(engagementConfig))`
loop of `getAllEngagements`: resolve associations, and when ids exist,
batch-fetch and append the category-tagged records. -/
def getAllEngagementsLoop (env : Env) (fuel : Nat) :
    List (String × List String) → Run (List HObj)
  | [] => Run.pure []
  | (engType, _) :: rest =>
    Run.bind (getAssociations env.assocApi (assocStartUrl engType) fuel) (fun associations =>
      let objectIds := edgeIds associations
      Run.bind
        (if objectIds.isEmpty then Run.pure []
         else Run.bind (getObjectBatch (env.batch engType) engType objectIds) (fun details =>
           Run.pure (details.map (tagEngagement engType))))
        (fun tagged =>
          Run.bind (getAllEngagementsLoop env fuel rest) (fun more =>
            Run.pure (tagged ++ more))))

def getAllEngagementsRun (env : Env) (fuel : Nat) : Run (List HObj) :=
  getAllEngagementsLoop env fuel engagementConfig

/-- The document-assembly portion of `runAnalysis`: fetch the deal, the
contacts and companies, and every engagement category, then collect urls and
format the document.  (`runAnalysis` issues the contacts and companies
fetches through `Promise.all`; §5 of the spec notes their completion order
does not affect the output, and the model sequences them.) -/
def assembleDocument (env : Env) (fuel : Nat) : Run String :=
  Run.bind (getDealRun env) (fun deal =>
  Run.bind (getContactsRun env fuel) (fun contacts =>
  Run.bind (getCompaniesRun env fuel) (fun companies =>
  Run.bind (getAllEngagementsRun env fuel) (fun engagements =>
    let collectedUrls := collectAllUrls engagements
    Run.pure (formatDealForClaude deal contacts companies engagements collectedUrls)))))

/-! ### Predicates used by the claims -/

/-- A well-formed `N`-page association listing reachable from a start url:
every url of the chain resolves to an ok response whose body is the listed
page, each page's (normalized) cursor leads to the next, and the last page
has no cursor.  `getAssociations` is exercised against such chains. -/
def isListing (api : AssocApi) : String → List AssocPage → Bool
  | _, [] => false
  | u, p :: rest =>
    ((api.lookup u).map (fun r =>
      r.ok && decide (r.body = p) &&
      (match normLink p.nextLink, rest with
       | none, [] => true
       | some u2, _ :: _ => isListing api u2 rest
       | _, _ => false))).getD false

/-- Computable lexicographic order on strings (by code points). -/
def strLeB : List Char → List Char → Bool
  | [], _ => true
  | _ :: _, [] => false
  | a :: as, b :: bs => if a < b then true else if b < a then false else strLeB as bs

/-- Modelled from the spec claim's words: engagements ordered by timestamp
ascending with the record identifier as tiebreak on equal timestamps.
Stated only to be compared with what `sortEngagements` actually produces. -/
def idTiebreakOrdered (l : List HObj) : Prop :=
  l.Pairwise (fun a b =>
    sortKey a < sortKey b ∨
    (sortKey a = sortKey b ∧ strLeB (jsOr a.id "").data (jsOr b.id "").data = true))

/-- Modelled from the spec claim's words: url collection in which every
record's content is FIRST sanitized (`stripHtml` with urls preserved) and
urls are extracted from the sanitized text.  Stated only to be compared with
the source's `collectAllUrls`, which extracts from the raw content. -/
def collectAllUrlsSanitized (engagements : List HObj) : List (String × List String) :=
  engagements.foldl (fun m eng =>
    (extractUrlsFromContent (stripHtml (some (engContext eng).1) true)).foldl
      (fun m url => addContext m url (engContext eng).2) m) []

def okEvents (l : List FetchEvent) : Prop := ∀ ev ∈ l, ev.ok = true

/-- Errors of the model itself (unresolvable url, exhausted pagination fuel)
rather than of a received HTTP response. -/
def modelErr (e : String) : Prop := e = netErr ∨ e = fuelErr

/-- The abort discipline of every client computation: it only appends fetch
events; on success every appended event is ok; on an error either the error
is model-internal (and every appended event is ok), or the appended events
are ok ones followed by the single failing response, whose status the thrown
message carries — nothing is fetched after a failure and no retry happens. -/
def GoodRun (m : Run α) : Prop :=
  ∀ tr, ∃ evs, (m tr).2 = tr ++ evs ∧
    ((∃ a, (m tr).1 = Except.ok a) → okEvents evs) ∧
    (∀ e, (m tr).1 = Except.error e →
      (okEvents evs ∧ modelErr e) ∨
      (∃ pre bad, evs = pre ++ [bad] ∧ okEvents pre ∧ bad.ok = false ∧ e = errMsg bad.status))

/-! ## Helper lemmas -/

theorem dropWhile_dropWhile (p : Char → Bool) :
    ∀ l : List Char, (l.dropWhile p).dropWhile p = l.dropWhile p := by
  intro l
  induction l with
  | nil => rfl
  | cons a l ih =>
    by_cases h : p a
    · simp [List.dropWhile_cons, h, ih]
    · simp [List.dropWhile_cons, h]

theorem stripTrailingPunct_idem (u : String) :
    stripTrailingPunct (stripTrailingPunct u) = stripTrailingPunct u := by
  unfold stripTrailingPunct
  simp [List.reverse_reverse, dropWhile_dropWhile]

theorem foldl_dedup_mem :
    ∀ (l : List String) (acc : List String) (u : String),
      u ∈ l.foldl (fun acc x => if x ∈ acc then acc else acc ++ [x]) acc →
      u ∈ acc ∨ u ∈ l := by
  intro l
  induction l with
  | nil => intro acc u h; exact Or.inl h
  | cons x xs ih =>
    intro acc u h
    simp only [List.foldl_cons] at h
    rcases ih _ u h with h2 | h2
    · by_cases hx : x ∈ acc
      · simp only [if_pos hx] at h2; exact Or.inl h2
      · simp only [if_neg hx, List.mem_append, List.mem_singleton] at h2
        rcases h2 with h3 | h3
        · exact Or.inl h3
        · subst h3; exact Or.inr (List.mem_cons_self _ _)
    · exact Or.inr (List.mem_cons_of_mem _ h2)

theorem foldl_dedup_nodup :
    ∀ (l : List String) (acc : List String), acc.Nodup →
      (l.foldl (fun acc x => if x ∈ acc then acc else acc ++ [x]) acc).Nodup := by
  intro l
  induction l with
  | nil => intro acc h; exact h
  | cons x xs ih =>
    intro acc h
    simp only [List.foldl_cons]
    by_cases hx : x ∈ acc
    · rw [if_pos hx]; exact ih _ h
    · rw [if_neg hx]
      exact ih _ (by simp [List.nodup_append, h, hx])

theorem dedupKeepFirst_nodup (l : List String) : (dedupKeepFirst l).Nodup :=
  foldl_dedup_nodup l [] List.nodup_nil

theorem extractUrls_nodup (s : String) : (extractUrlsFromContent s).Nodup := by
  unfold extractUrlsFromContent
  by_cases hs : s = ""
  · simp [hs]
  · simp only [if_neg hs]
    exact dedupKeepFirst_nodup _

/-! ## C3 -/

/-- C3, counterexample: on the claim's example input with `preserveUrls = true`
the angle-bracket-wrapped URL does NOT survive in bare form — the initial
tag-stripping replace `/<[^>]+>/g` has already consumed `<https://…>` before
the unwrapping rule runs — so "both URLs present" is false as stated. -/
theorem stripHtml_example_bracketed_url_lost :
    stripHtml (some "Check <https://docs.google.com/x> and http://example.com/y.") true =
      "Check and http://example.com/y." ∧
    strContains
      (stripHtml (some "Check <https://docs.google.com/x> and http://example.com/y.") true)
      "https://docs.google.com/x" = false := by
  exact ⟨by decide, by decide⟩

/-- C3, amended: with `preserveUrls = false` neither URL survives; with
`preserveUrls = true` the bare URL survives while a literally
angle-bracket-wrapped URL is removed by tag stripping; an angle-bracket
wrapping that is entity-encoded (`&lt;…&gt;`) — the only form still carrying
brackets after tag stripping — is unwrapped to bare form and survives. -/
theorem stripHtml_example_url_behaviour :
    (stripHtml (some "Check <https://docs.google.com/x> and http://example.com/y.") true =
       "Check and http://example.com/y." ∧
     strContains
       (stripHtml (some "Check <https://docs.google.com/x> and http://example.com/y.") true)
       "http://example.com/y" = true) ∧
    stripHtml (some "Check <https://docs.google.com/x> and http://example.com/y.") false =
      "Check and" ∧
    stripHtml (some "Check &lt;https://docs.google.com/x&gt; and http://example.com/y.") true =
      "Check https://docs.google.com/x and http://example.com/y." ∧
    stripHtml (some "Check &lt;https://docs.google.com/x&gt; and http://example.com/y.") false =
      "Check and" := by
  exact ⟨⟨by decide, by decide⟩, by decide, by decide, by decide⟩

/-! ## C7 -/

/-- C7: the dedup identity of collected URLs is the URL with trailing
punctuation stripped — every extracted URL is already in stripped form
(stripping is idempotent on it), and on the claim's example the same URL
with and without a trailing period collapses to a single entry carrying the
two provenance contexts. -/
theorem collectAllUrls_dedups_trailing_punct :
    (∀ s u, u ∈ extractUrlsFromContent s → stripTrailingPunct u = u) ∧
    collectAllUrls
      [{ etype := some "notes", properties := { hs_note_body := some "http://a.com/b" } },
       { etype := some "notes", properties := { hs_note_body := some "http://a.com/b." } }] =
      [("http://a.com/b", ["Note (Unknown date)", "Note (Unknown date)"])] := by
  constructor
  · intro s u h
    unfold extractUrlsFromContent at h
    by_cases hs : s = ""
    · simp [hs] at h
    · simp only [if_neg hs] at h
      unfold dedupKeepFirst at h
      rcases foldl_dedup_mem _ _ _ h with h2 | h2
      · simp at h2
      · rcases List.mem_map.1 h2 with ⟨m, _, rfl⟩
        exact stripTrailingPunct_idem m
  · decide

/-- C7, witness. -/
theorem collectAllUrls_dedups_trailing_punct_witness :
    "http://a.com/b" ∈ extractUrlsFromContent "see http://a.com/b." ∧
    stripTrailingPunct "http://a.com/b" = "http://a.com/b" ∧
    collectAllUrls
      [{ etype := some "notes", properties := { hs_note_body := some "http://a.com/b" } },
       { etype := some "notes", properties := { hs_note_body := some "http://a.com/b." } }] =
      [("http://a.com/b", ["Note (Unknown date)", "Note (Unknown date)"])] :=
  ⟨by decide,
   collectAllUrls_dedups_trailing_punct.1 "see http://a.com/b." "http://a.com/b" (by decide),
   collectAllUrls_dedups_trailing_punct.2⟩

/-! ## C8 -/

/-- C8, counterexample: a deal with no properties yields a header with NO
description line at all (six lines, none mentioning a description), and the
deal-name fallback is "Unknown Deal", not "N/A" — contradicting the claim
that a missing description still yields a `"**Description:** N/A"` line and
that every listed scalar falls back to "N/A". -/
theorem dealHeader_missing_description_no_line :
    dealHeaderLines {} =
      ["# Deal: Unknown Deal", "\n**Amount:** N/A", "**Stage:** N/A",
       "**Created:** N/A", "**Close Date:** N/A", ""] ∧
    "**Description:** N/A" ∉ dealHeaderLines {} ∧
    "# Deal: N/A" ∉ dealHeaderLines {} := by
  exact ⟨by decide, by decide, by decide⟩

/-- C8, amended: amount, stage, created and close dates fall back to "N/A";
the deal name falls back to "Unknown Deal"; a falsy description produces no
description line (six header lines), while a truthy one adds
`**Description:** <text>` as the sixth line. -/
theorem dealHeader_fallbacks (deal : HObj) :
    (deal.properties.dealname = none → "# Deal: Unknown Deal" ∈ dealHeaderLines deal) ∧
    (deal.properties.amount = none → "\n**Amount:** N/A" ∈ dealHeaderLines deal) ∧
    (deal.properties.dealstage = none → "**Stage:** N/A" ∈ dealHeaderLines deal) ∧
    (deal.properties.createdate = none → "**Created:** N/A" ∈ dealHeaderLines deal) ∧
    (deal.properties.closedate = none → "**Close Date:** N/A" ∈ dealHeaderLines deal) ∧
    ((deal.properties.description = none ∨ deal.properties.description = some "") →
      (dealHeaderLines deal).length = 6) ∧
    (∀ d, deal.properties.description = some d → d ≠ "" →
      (dealHeaderLines deal).length = 7 ∧
      (dealHeaderLines deal)[5]? = some ("**Description:** " ++ d)) := by
  refine ⟨?_, ?_, ?_, ?_, ?_, ?_, ?_⟩
  · intro h; simp [dealHeaderLines, jsOr, h]
  · intro h; simp [dealHeaderLines, jsOr, h]
  · intro h; simp [dealHeaderLines, jsOr, h]
  · intro h; simp [dealHeaderLines, jsOr, h]
  · intro h; simp [dealHeaderLines, jsOr, h]
  · rintro (h | h) <;> simp [dealHeaderLines, h]
  · intro d hd hne
    constructor <;> simp [dealHeaderLines, hd, hne]

/-- C8, witness. -/
theorem dealHeader_fallbacks_witness :
    "# Deal: Unknown Deal" ∈ dealHeaderLines {} ∧
    "\n**Amount:** N/A" ∈ dealHeaderLines {} ∧
    "**Stage:** N/A" ∈ dealHeaderLines {} ∧
    "**Created:** N/A" ∈ dealHeaderLines {} ∧
    "**Close Date:** N/A" ∈ dealHeaderLines {} ∧
    (dealHeaderLines {}).length = 6 ∧
    (dealHeaderLines { properties := { description := some "Key account" } }).length = 7 ∧
    (dealHeaderLines { properties := { description := some "Key account" } })[5]? =
      some ("**Description:** " ++ "Key account") :=
  ⟨(dealHeader_fallbacks {}).1 rfl,
   (dealHeader_fallbacks {}).2.1 rfl,
   (dealHeader_fallbacks {}).2.2.1 rfl,
   (dealHeader_fallbacks {}).2.2.2.1 rfl,
   (dealHeader_fallbacks {}).2.2.2.2.1 rfl,
   (dealHeader_fallbacks {}).2.2.2.2.2.1 (Or.inl rfl),
   ((dealHeader_fallbacks _).2.2.2.2.2.2 "Key account" rfl (by decide)).1,
   ((dealHeader_fallbacks _).2.2.2.2.2.2 "Key account" rfl (by decide)).2⟩

/-! ## C9 -/

/-- C9, counterexample: a collected mapping holding one CRM-host URL with one
provenance context renders the url BARE in the "HubSpot Links" bucket — no
"Found in" context line anywhere — so "every listed URL (in each of the three
buckets) is followed by up to 3 of its provenance contexts" is false. -/
theorem urlIndex_hubspot_bucket_has_no_contexts :
    urlIndexLines [("http://app.hubspot.com/deal/1", ["Note (Unknown date)"])] =
      ["\n## Linked Documents & URLs", "*1 unique URLs found in deal activities*\n",
       "\n### HubSpot Links", "- http://app.hubspot.com/deal/1", ""] ∧
    (urlIndexLines [("http://app.hubspot.com/deal/1", ["Note (Unknown date)"])]).all
      (fun l => !(strContains l "Found in")) = true := by
  exact ⟨by decide, by decide⟩

/-- C9, amended: in the rendered URL index, only the documents bucket lists
each URL followed by its up-to-3 provenance contexts (with an ellipsis when
more exist); the CRM bucket and the "other" bucket list bare URLs; the
"other" bucket renders only its first 20 entries and, beyond 20, a note with
the count of the remaining entries. -/
theorem urlIndex_buckets (entries : List (String × List String)) (u : String)
    (ctxs : List String) :
    ((u, ctxs) ∈ (classifyUrls entries).1 →
      ("- " ++ u) ∈ urlIndexLines entries ∧
      ("  *Found in: " ++ String.intercalate ", " (ctxs.take 3) ++
         (if decide (3 < ctxs.length) then "..." else "") ++ "*") ∈ urlIndexLines entries) ∧
    ((u, ctxs) ∈ (classifyUrls entries).2.1 → ("- " ++ u) ∈ urlIndexLines entries) ∧
    ((u, ctxs) ∈ ((classifyUrls entries).2.2.take 20) → ("- " ++ u) ∈ urlIndexLines entries) ∧
    (20 < (classifyUrls entries).2.2.length →
      ("*... and " ++ toString ((classifyUrls entries).2.2.length - 20) ++ " more*")
        ∈ urlIndexLines entries) := by
  cases entries with
  | nil => simp [classifyUrls]
  | cons e rest =>
    rcases hcl : classifyUrls (e :: rest) with ⟨D, H, O⟩
    have hlines : urlIndexLines (e :: rest) =
        ["\n## Linked Documents & URLs",
         "*" ++ toString (e :: rest).length ++ " unique URLs found in deal activities*\n"]
        ++ (if D.length > 0 then
              ["### Meeting Notes & Documents"] ++ (D.map docUrlEntryLines).flatten
            else [])
        ++ (if H.length > 0 then
              ["\n### HubSpot Links"] ++ H.map (fun e => "- " ++ e.1)
            else [])
        ++ (if O.length > 0 then
              ["\n### Other Links"] ++ (O.take 20).map (fun e => "- " ++ e.1)
              ++ (if 20 < O.length then
                    ["*... and " ++ toString (O.length - 20) ++ " more*"]
                  else [])
            else [])
        ++ [""] := by
      unfold urlIndexLines
      rw [hcl]
      simp
    rw [hlines]
    refine ⟨?_, ?_, ?_, ?_⟩
    · intro hm
      have hD : D.length > 0 := List.length_pos.2 (List.ne_nil_of_mem hm)
      rw [if_pos hD]
      have hline1 : ("- " ++ u) ∈ (D.map docUrlEntryLines).flatten :=
        List.mem_flatten.2 ⟨docUrlEntryLines (u, ctxs), List.mem_map_of_mem _ hm,
          by simp [docUrlEntryLines]⟩
      have hline2 : ("  *Found in: " ++ String.intercalate ", " (ctxs.take 3) ++
            (if decide (3 < ctxs.length) then "..." else "") ++ "*")
          ∈ (D.map docUrlEntryLines).flatten :=
        List.mem_flatten.2 ⟨docUrlEntryLines (u, ctxs), List.mem_map_of_mem _ hm,
          by simp [docUrlEntryLines]⟩
      constructor
      · exact List.mem_append_left _ (List.mem_append_left _ (List.mem_append_left _
          (List.mem_append_right _ (List.mem_cons_of_mem _ hline1))))
      · exact List.mem_append_left _ (List.mem_append_left _ (List.mem_append_left _
          (List.mem_append_right _ (List.mem_cons_of_mem _ hline2))))
    · intro hm
      have hH : H.length > 0 := List.length_pos.2 (List.ne_nil_of_mem hm)
      rw [if_pos hH]
      have hline : ("- " ++ u) ∈ H.map (fun e => "- " ++ e.1) := by
        have := List.mem_map_of_mem (fun e => "- " ++ e.1) hm
        simpa using this
      exact List.mem_append_left _ (List.mem_append_left _ (List.mem_append_right _
        (List.mem_cons_of_mem _ hline)))
    · intro hm
      have hO : O.length > 0 :=
        List.length_pos.2 (List.ne_nil_of_mem (List.take_sublist 20 O |>.subset hm))
      rw [if_pos hO]
      have hline : ("- " ++ u) ∈ (O.take 20).map (fun e => "- " ++ e.1) := by
        have := List.mem_map_of_mem (fun e => "- " ++ e.1) hm
        simpa using this
      exact List.mem_append_left _ (List.mem_append_right _
        (List.mem_cons_of_mem _ (List.mem_append_left _ hline)))
    · intro hcap
      have hcap2 : 20 < O.length := hcap
      have hO : O.length > 0 := by omega
      rw [if_pos hO, if_pos hcap]
      refine List.mem_append_left _ (List.mem_append_right _ ?_)
      exact List.mem_cons_of_mem _ (List.mem_append_right _ (List.mem_singleton.2 rfl))

/-- C9, witness. -/
theorem urlIndex_buckets_witness :
    (("https://docs.google.com/spec", ["c1", "c2", "c3", "c4"]) ∈
       (classifyUrls (("https://docs.google.com/spec", ["c1", "c2", "c3", "c4"]) ::
         ("http://app.hubspot.com/x", ["h"]) ::
         (List.range 21).map (fun i => ("http://o.example/" ++ toString i, ["c"])))).1) ∧
    (("- https://docs.google.com/spec") ∈
       urlIndexLines (("https://docs.google.com/spec", ["c1", "c2", "c3", "c4"]) ::
         ("http://app.hubspot.com/x", ["h"]) ::
         (List.range 21).map (fun i => ("http://o.example/" ++ toString i, ["c"]))) ∧
     ("  *Found in: " ++ String.intercalate ", " (["c1", "c2", "c3", "c4"].take 3) ++
        (if decide (3 < (["c1", "c2", "c3", "c4"] : List String).length) then "..." else "") ++ "*") ∈
       urlIndexLines (("https://docs.google.com/spec", ["c1", "c2", "c3", "c4"]) ::
         ("http://app.hubspot.com/x", ["h"]) ::
         (List.range 21).map (fun i => ("http://o.example/" ++ toString i, ["c"])))) ∧
    ("*... and 1 more*") ∈
      urlIndexLines (("https://docs.google.com/spec", ["c1", "c2", "c3", "c4"]) ::
        ("http://app.hubspot.com/x", ["h"]) ::
        (List.range 21).map (fun i => ("http://o.example/" ++ toString i, ["c"]))) := by
  refine ⟨by decide, ?_, ?_⟩
  · exact (urlIndex_buckets _ "https://docs.google.com/spec" ["c1", "c2", "c3", "c4"]).1
      (by decide)
  · have h := (urlIndex_buckets (("https://docs.google.com/spec", ["c1", "c2", "c3", "c4"]) ::
      ("http://app.hubspot.com/x", ["h"]) ::
      (List.range 21).map (fun i => ("http://o.example/" ++ toString i, ["c"])))
      "" []).2.2.2 (by decide)
    simpa using h

/-! ## C5 -/

unseal List.merge List.mergeSort in
/-- C5, counterexample: two engagements with equal (absent) timestamps whose
identifiers are out of order stay in input order after the sort — the
comparator `tsA - tsB` never consults the record identifier, so "identifier
as tiebreak" is false. -/
theorem sortEngagements_no_id_tiebreak :
    sortEngagements [{ id := some "b" }, { id := some "a" }] =
      [{ id := some "b" }, { id := some "a" }] ∧
    ¬ idTiebreakOrdered (sortEngagements [{ id := some "b" }, { id := some "a" }]) := by
  constructor
  · decide
  · unfold idTiebreakOrdered
    decide

/-- C5, amended: an absent or non-numeric timestamp contributes sort key 0
(so, timestamps being nonnegative epoch millis, such records sort first),
and the output is sorted by the key; equal keys keep their input order (the
sort is stable — see the stability theorem), not identifier order. -/
theorem sortEngagements_key_and_order :
    (∀ e : HObj, e.properties.hs_timestamp = none → sortKey e = 0) ∧
    (∀ (e : HObj) (s : String), e.properties.hs_timestamp = some s → parseIntJS s = none →
      sortKey e = 0) ∧
    (∀ es : List HObj, (sortEngagements es).Pairwise (fun a b => sortKey a ≤ sortKey b)) := by
  refine ⟨?_, ?_, ?_⟩
  · intro e h; simp [sortKey, h]
  · intro e s h hp; simp [sortKey, h, hp]
  · intro es
    unfold sortEngagements
    have h := @List.sorted_mergeSort HObj (fun a b => decide (sortKey a ≤ sortKey b))
      (fun x y z hxy hyz => by simp only [decide_eq_true_eq] at *; omega)
      (fun x y => by simp only [Bool.or_eq_true, decide_eq_true_eq]; omega) es
    exact h.imp (fun hd => by simpa using hd)

/-- C5, witness. -/
theorem sortEngagements_key_and_order_witness :
    ({ } : HObj).properties.hs_timestamp = none ∧
    sortKey ({ } : HObj) = 0 ∧
    ({ properties := { hs_timestamp := some "soon" } } : HObj).properties.hs_timestamp =
      some "soon" ∧
    parseIntJS "soon" = none ∧
    sortKey ({ properties := { hs_timestamp := some "soon" } } : HObj) = 0 ∧
    (sortEngagements [{ properties := { hs_timestamp := some "5" } }, ({ } : HObj)]).Pairwise
      (fun a b => sortKey a ≤ sortKey b) :=
  ⟨rfl,
   sortEngagements_key_and_order.1 { } rfl,
   rfl,
   by decide,
   sortEngagements_key_and_order.2.1 _ "soon" rfl (by decide),
   sortEngagements_key_and_order.2.2 _⟩

/-! ## C6 -/

/-- C6: the engagement sort is stable — any pair of records with equal sort
keys that appears (in order) in the input still appears in that relative
order in the sorted output. -/
theorem sortEngagements_stable (es : List HObj) (a b : HObj)
    (hk : sortKey a = sortKey b) (hsub : List.Sublist [a, b] es) :
    List.Sublist [a, b] (sortEngagements es) := by
  unfold sortEngagements
  apply List.pair_sublist_mergeSort
  · intro x y z hxy hyz
    simp only [decide_eq_true_eq] at *
    omega
  · intro x y
    simp only [Bool.or_eq_true, decide_eq_true_eq]
    omega
  · simp only [decide_eq_true_eq]
    omega
  · exact hsub

unseal List.merge List.mergeSort in
/-- C6, witness. -/
theorem sortEngagements_stable_witness :
    sortKey ({ id := some "x" } : HObj) = sortKey ({ id := some "y" } : HObj) ∧
    List.Sublist [({ id := some "x" } : HObj), { id := some "y" }]
      [({ id := some "x" } : HObj), { id := some "y" }] ∧
    List.Sublist [({ id := some "x" } : HObj), { id := some "y" }]
      (sortEngagements [({ id := some "x" } : HObj), { id := some "y" }]) :=
  ⟨by decide, List.Sublist.refl _,
   sortEngagements_stable _ _ _ (by decide) (List.Sublist.refl _)⟩

/-! ## C4 -/

theorem addContext_absent (m : List (String × List String)) (u : String) (c : String)
    (h : ∀ p ∈ m, p.1 ≠ u) : addContext m u c = m ++ [(u, [c])] := by
  induction m with
  | nil => rfl
  | cons p rest ih =>
    obtain ⟨k, cs⟩ := p
    have hk : k ≠ u := h (k, cs) (List.mem_cons_self _ _)
    simp only [addContext, if_neg hk, List.cons_append, List.cons.injEq, true_and]
    exact ih (fun q hq => h q (List.mem_cons_of_mem _ hq))

theorem foldl_addContext_fresh :
    ∀ (urls : List String) (m : List (String × List String)) (c : String),
      urls.Nodup → (∀ u ∈ urls, ∀ p ∈ m, p.1 ≠ u) →
      urls.foldl (fun m u => addContext m u c) m = m ++ urls.map (fun u => (u, [c])) := by
  intro urls
  induction urls with
  | nil => intro m c _ _; simp
  | cons u us ih =>
    intro m c hnd habs
    simp only [List.foldl_cons]
    rw [addContext_absent m u c (habs u (List.mem_cons_self _ _))]
    rw [ih (m ++ [(u, [c])]) c hnd.of_cons]
    · simp
    · intro v hv p hp
      rcases List.mem_append.1 hp with hp | hp
      · exact habs v (List.mem_cons_of_mem _ hv) p hp
      · simp only [List.mem_singleton] at hp
        subst hp
        intro hc
        simp only at hc
        subst hc
        exact (List.nodup_cons.1 hnd).1 hv

/-- C4, counterexample: a note whose body carries a URL only inside an HTML
tag attribute.  The source's `collectAllUrls` extracts from the RAW content
and records the URL; the claim's sanitize-first version finds nothing,
because tag stripping has removed the whole tag (attribute included). -/
theorem collectAllUrls_uses_raw_content :
    collectAllUrls
      [{ etype := some "notes",
         properties := { hs_note_body := some "<a href=\"http://x.com/a\">link</a>" } }] =
      [("http://x.com/a", ["Note (Unknown date)"])] ∧
    collectAllUrlsSanitized
      [{ etype := some "notes",
         properties := { hs_note_body := some "<a href=\"http://x.com/a\">link</a>" } }] =
      [] ∧
    collectAllUrls
      [{ etype := some "notes",
         properties := { hs_note_body := some "<a href=\"http://x.com/a\">link</a>" } }] ≠
    collectAllUrlsSanitized
      [{ etype := some "notes",
         properties := { hs_note_body := some "<a href=\"http://x.com/a\">link</a>" } }] := by
  exact ⟨by decide, by decide, by decide⟩

/-- C4, amended: for a single engagement record, `collectAllUrls` extracts
the URLs of the record's raw (unsanitized) free-text content and attaches to
each exactly one copy of the record's deterministic context label (category,
title/subject, formatted timestamp — see `engContext`). -/
theorem collectAllUrls_single (eng : HObj) :
    collectAllUrls [eng] =
      (extractUrlsFromContent (engContext eng).1).map (fun u => (u, [(engContext eng).2])) := by
  show addRecordUrls [] eng = _
  unfold addRecordUrls
  rw [foldl_addContext_fresh _ _ _ (extractUrls_nodup _) (by intro u _ p hp; simp at hp)]
  simp

/-! ## C10 -/

theorem ctxOf_cons (k : String) (cs : List String) (rest : List (String × List String))
    (v : String) : ctxOf ((k, cs) :: rest) v = if k = v then cs else ctxOf rest v := by
  by_cases h : k = v <;> simp [ctxOf, List.find?_cons, beq_iff_eq, h]

theorem ctxOf_addContext (m : List (String × List String)) (u c v : String) :
    ctxOf (addContext m u c) v = if v = u then ctxOf m v ++ [c] else ctxOf m v := by
  induction m with
  | nil =>
    by_cases h : v = u
    · subst h; simp [addContext, ctxOf_cons, ctxOf]
    · simp [addContext, ctxOf_cons, ctxOf, h, Ne.symm h]
  | cons p rest ih =>
    obtain ⟨k, cs⟩ := p
    by_cases hk : k = u
    · subst hk
      by_cases hv : v = k
      · subst hv; simp [addContext, ctxOf_cons]
      · simp [addContext, ctxOf_cons, hv, Ne.symm hv]
    · have haddc : addContext ((k, cs) :: rest) u c = (k, cs) :: addContext rest u c := by
        simp [addContext, hk]
      rw [haddc]
      by_cases hv : k = v
      · subst hv
        simp [ctxOf_cons, fun hh : k = u => hk hh]
      · simp [ctxOf_cons, hv, ih]

theorem ctxOf_foldl_count :
    ∀ (urls : List String) (m : List (String × List String)) (c u : String),
      (ctxOf (urls.foldl (fun m x => addContext m x c) m) u).length =
        (ctxOf m u).length + urls.count u := by
  intro urls
  induction urls with
  | nil => intro m c u; simp
  | cons x xs ih =>
    intro m c u
    simp only [List.foldl_cons]
    rw [ih, ctxOf_addContext, List.count_cons]
    by_cases h : u = x
    · subst h
      simp
      omega
    · have hbeq : (x == u) = false := by
        simp only [beq_eq_false_iff_ne, ne_eq]
        exact fun hh => h hh.symm
      simp [h, hbeq]

theorem ctxOf_collectLoop :
    ∀ (engs : List HObj) (m : List (String × List String)) (u : String),
      (ctxOf (collectLoop m engs) u).length =
        (ctxOf m u).length +
          engs.countP (fun e => decide (u ∈ extractUrlsFromContent (engContext e).1)) := by
  intro engs
  induction engs with
  | nil => intro m u; simp [collectLoop]
  | cons e es ih =>
    intro m u
    simp only [collectLoop]
    rw [ih]
    unfold addRecordUrls
    rw [ctxOf_foldl_count]
    rw [List.countP_cons]
    by_cases hm : u ∈ extractUrlsFromContent (engContext e).1
    · rw [List.count_eq_one_of_mem (extractUrls_nodup _) hm]
      simp [hm]
      omega
    · rw [List.count_eq_zero_of_not_mem hm]
      simp [hm]

/-- C10: within one record every distinct URL is recorded at most once
(extraction output carries no duplicates), so a URL's context-list length in
the collected mapping never exceeds — in fact equals — the number of
engagement records whose content contains it. -/
theorem collectAllUrls_context_count :
    (∀ s : String, (extractUrlsFromContent s).Nodup) ∧
    (∀ (engagements : List HObj) (u : String),
      (ctxOf (collectAllUrls engagements) u).length ≤
        engagements.countP (fun e => decide (u ∈ extractUrlsFromContent (engContext e).1))) := by
  refine ⟨extractUrls_nodup, ?_⟩
  intro engagements u
  unfold collectAllUrls
  rw [ctxOf_collectLoop]
  simp [ctxOf]

/-! ## C1 -/

theorem getAssocLoop_listing :
    ∀ (pages : List AssocPage) (api : AssocApi) (u : String) (fuel : Nat)
      (acc : List AssocEdge) (tr : List FetchEvent),
      isListing api u pages = true → pages.length ≤ fuel →
      ∃ evs : List FetchEvent,
        getAssocLoop api fuel (some u) acc tr =
          (Except.ok (acc ++ (pages.map (fun p => p.results.getD [])).flatten), tr ++ evs) ∧
        evs.length = pages.length := by
  intro pages
  induction pages with
  | nil => intro api u fuel acc tr hl _; simp [isListing] at hl
  | cons p rest ih =>
    intro api u fuel acc tr hl hlen
    cases fuel with
    | zero => simp at hlen
    | succ f =>
      unfold isListing at hl
      cases hlk : api.lookup u with
      | none => rw [hlk] at hl; simp at hl
      | some r =>
        rw [hlk] at hl
        simp only [Option.map_some', Option.getD_some, Bool.and_eq_true,
          decide_eq_true_eq] at hl
        obtain ⟨⟨hok, hbody⟩, hmatch⟩ := hl
        unfold getAssocLoop
        rw [hlk]
        simp only [Run.bind, hsFetch, hok, if_true]
        rw [hbody]
        cases hnl : normLink p.nextLink with
        | none =>
          cases rest with
          | nil =>
            refine ⟨[⟨u, true, r.status⟩], ?_, rfl⟩
            simp [getAssocLoop, Run.pure]
          | cons q qs => rw [hnl] at hmatch; simp at hmatch
        | some u2 =>
          cases rest with
          | nil => rw [hnl] at hmatch; simp at hmatch
          | cons q qs =>
            rw [hnl] at hmatch
            simp only at hmatch
            have hlen2 : (q :: qs).length ≤ f := by
              simp only [List.length_cons] at hlen ⊢
              omega
            obtain ⟨evs, heq, hlenevs⟩ :=
              ih api u2 f (acc ++ p.results.getD []) (tr ++ [⟨u, true, r.status⟩]) hmatch hlen2
            refine ⟨⟨u, true, r.status⟩ :: evs, ?_, by simp [hlenevs]⟩
            rw [heq]
            simp

/-- C1: resolving a well-formed N-page association listing returns exactly
the concatenation of all pages' result edges, in page order, and records
exactly N fetch events — one per page, following the next-page cursor until
it is absent — with no assumption on any page's size. -/
theorem getAssociations_resolves_listing (api : AssocApi) (startUrl : String)
    (pages : List AssocPage) (fuel : Nat)
    (hl : isListing api startUrl pages = true) (hfuel : pages.length ≤ fuel) :
    (getAssociations api startUrl fuel []).1 =
      Except.ok ((pages.map (fun p => p.results.getD [])).flatten) ∧
    (getAssociations api startUrl fuel []).2.length = pages.length := by
  obtain ⟨evs, heq, hlen⟩ := getAssocLoop_listing pages api startUrl fuel [] [] hl hfuel
  unfold getAssociations
  rw [heq]
  simp [hlen]

/-- C1, witness: a concrete two-page listing (first page of two edges and a
cursor, second page of one edge and no cursor) resolves to the three edges
in order with exactly two fetches. -/
theorem getAssociations_resolves_listing_witness :
    isListing
      [(assocStartUrl "contacts",
        { ok := true, status := 200,
          body := { results := some [{ toObjectId := some 1 }, { toObjectId := some 2 }],
                    nextLink := some "page2" } }),
       ("page2",
        { ok := true, status := 200,
          body := { results := some [{ toObjectId := some 3 }], nextLink := none } })]
      (assocStartUrl "contacts")
      [{ results := some [{ toObjectId := some 1 }, { toObjectId := some 2 }],
         nextLink := some "page2" },
       { results := some [{ toObjectId := some 3 }], nextLink := none }] = true ∧
    ([{ results := some [{ toObjectId := some 1 }, { toObjectId := some 2 }],
        nextLink := some "page2" },
      ({ results := some [{ toObjectId := some 3 }], nextLink := none } : AssocPage)].length ≤ 5) ∧
    (getAssociations
      [(assocStartUrl "contacts",
        { ok := true, status := 200,
          body := { results := some [{ toObjectId := some 1 }, { toObjectId := some 2 }],
                    nextLink := some "page2" } }),
       ("page2",
        { ok := true, status := 200,
          body := { results := some [{ toObjectId := some 3 }], nextLink := none } })]
      (assocStartUrl "contacts") 5 []).1 =
      Except.ok [{ toObjectId := some 1 }, { toObjectId := some 2 }, { toObjectId := some 3 }] ∧
    (getAssociations
      [(assocStartUrl "contacts",
        { ok := true, status := 200,
          body := { results := some [{ toObjectId := some 1 }, { toObjectId := some 2 }],
                    nextLink := some "page2" } }),
       ("page2",
        { ok := true, status := 200,
          body := { results := some [{ toObjectId := some 3 }], nextLink := none } })]
      (assocStartUrl "contacts") 5 []).2.length = 2 := by
  refine ⟨by decide, by decide, ?_, ?_⟩
  · have h := (getAssociations_resolves_listing
      [(assocStartUrl "contacts",
        { ok := true, status := 200,
          body := { results := some [{ toObjectId := some 1 }, { toObjectId := some 2 }],
                    nextLink := some "page2" } }),
       ("page2",
        { ok := true, status := 200,
          body := { results := some [{ toObjectId := some 3 }], nextLink := none } })]
      (assocStartUrl "contacts")
      [{ results := some [{ toObjectId := some 1 }, { toObjectId := some 2 }],
         nextLink := some "page2" },
       { results := some [{ toObjectId := some 3 }], nextLink := none }]
      5 (by decide) (by decide)).1
    simpa using h
  · exact (getAssociations_resolves_listing
      [(assocStartUrl "contacts",
        { ok := true, status := 200,
          body := { results := some [{ toObjectId := some 1 }, { toObjectId := some 2 }],
                    nextLink := some "page2" } }),
       ("page2",
        { ok := true, status := 200,
          body := { results := some [{ toObjectId := some 3 }], nextLink := none } })]
      (assocStartUrl "contacts")
      [{ results := some [{ toObjectId := some 1 }, { toObjectId := some 2 }],
         nextLink := some "page2" },
       { results := some [{ toObjectId := some 3 }], nextLink := none }]
      5 (by decide) (by decide)).2

/-! ## C2 -/

theorem goodRun_pure (a : α) : GoodRun (Run.pure a) := by
  intro tr
  refine ⟨[], by simp [Run.pure], ?_, ?_⟩
  · intro _ ev hev; simp at hev
  · intro e he; simp [Run.pure] at he

theorem goodRun_fail (e0 : String) (h : modelErr e0) : GoodRun (Run.fail e0 : Run α) := by
  intro tr
  refine ⟨[], by simp [Run.fail], ?_, ?_⟩
  · rintro ⟨a, ha⟩; simp [Run.fail] at ha
  · intro e he
    left
    refine ⟨by intro ev hev; simp at hev, ?_⟩
    simp only [Run.fail] at he
    injection he with h2
    rw [← h2]
    exact h

theorem goodRun_hsFetch (r : HttpResp α) (url : String) : GoodRun (hsFetch r url) := by
  intro tr
  refine ⟨[⟨url, r.ok, r.status⟩], by simp [hsFetch], ?_, ?_⟩
  · rintro ⟨a, ha⟩
    intro ev hev
    simp only [List.mem_singleton] at hev
    subst hev
    by_cases hok : r.ok
    · simp [hok]
    · simp [hsFetch, hok] at ha
  · intro e he
    by_cases hok : r.ok
    · simp [hsFetch, hok] at he
    · right
      refine ⟨[], ⟨url, r.ok, r.status⟩, by simp, by intro ev hev; simp at hev, ?_, ?_⟩
      · simp [Bool.not_eq_true] at hok
        simp [hok]
      · simp [hsFetch, hok] at he
        exact he.symm

theorem goodRun_bind {m : Run α} {f : α → Run β}
    (hm : GoodRun m) (hf : ∀ a, GoodRun (f a)) : GoodRun (Run.bind m f) := by
  intro tr
  obtain ⟨evs1, htr1, hok1, herr1⟩ := hm tr
  cases hres : (m tr).1 with
  | ok a =>
    have hmtr : m tr = (Except.ok a, (m tr).2) := by rw [← hres]
    have hbind : Run.bind m f tr = f a ((m tr).2) := by
      unfold Run.bind
      rw [hmtr]
    obtain ⟨evs2, htr2, hok2, herr2⟩ := hf a ((m tr).2)
    refine ⟨evs1 ++ evs2, ?_, ?_, ?_⟩
    · rw [hbind, htr2, htr1, List.append_assoc]
    · rintro ⟨b, hb⟩
      rw [hbind] at hb
      intro ev hev
      rcases List.mem_append.1 hev with h2 | h2
      · exact hok1 ⟨a, hres⟩ ev h2
      · exact hok2 ⟨b, hb⟩ ev h2
    · intro e he
      rw [hbind] at he
      rcases herr2 e he with ⟨hokevs2, hme⟩ | ⟨pre, bad, hsplit, hokpre, hbad, heq⟩
      · left
        refine ⟨?_, hme⟩
        intro ev hev
        rcases List.mem_append.1 hev with h2 | h2
        · exact hok1 ⟨a, hres⟩ ev h2
        · exact hokevs2 ev h2
      · right
        refine ⟨evs1 ++ pre, bad, by rw [hsplit, List.append_assoc], ?_, hbad, heq⟩
        intro ev hev
        rcases List.mem_append.1 hev with h2 | h2
        · exact hok1 ⟨a, hres⟩ ev h2
        · exact hokpre ev h2
  | error e0 =>
    have hmtr : m tr = (Except.error e0, (m tr).2) := by rw [← hres]
    have hbind : Run.bind m f tr = (Except.error e0, (m tr).2) := by
      unfold Run.bind
      rw [hmtr]
    refine ⟨evs1, ?_, ?_, ?_⟩
    · rw [hbind]; exact htr1
    · rintro ⟨b, hb⟩
      rw [hbind] at hb
      simp at hb
    · intro e he
      rw [hbind] at he
      injection he with h2
      subst h2
      exact herr1 e0 hres

theorem goodRun_getAssocLoop (api : AssocApi) :
    ∀ (fuel : Nat) (next : Option String) (acc : List AssocEdge),
      GoodRun (getAssocLoop api fuel next acc) := by
  intro fuel
  induction fuel with
  | zero =>
    intro next acc
    cases next with
    | none => exact goodRun_pure acc
    | some u => exact goodRun_fail fuelErr (Or.inr rfl)
  | succ f ih =>
    intro next acc
    cases next with
    | none => exact goodRun_pure acc
    | some u =>
      show GoodRun (match api.lookup u with
        | none => Run.fail netErr
        | some r => Run.bind (hsFetch r u) (fun page =>
            getAssocLoop api f (normLink page.nextLink) (acc ++ page.results.getD [])))
      cases api.lookup u with
      | none => exact goodRun_fail netErr (Or.inl rfl)
      | some r => exact goodRun_bind (goodRun_hsFetch r u) (fun page => ih _ _)

theorem goodRun_getAssociations (api : AssocApi) (startUrl : String) (fuel : Nat) :
    GoodRun (getAssociations api startUrl fuel) :=
  goodRun_getAssocLoop api fuel (some startUrl) []

theorem goodRun_getObjectBatch (resp : HttpResp BatchBody) (t : String) (ids : List Nat) :
    GoodRun (getObjectBatch resp t ids) := by
  unfold getObjectBatch
  by_cases h : ids.isEmpty
  · rw [if_pos h]; exact goodRun_pure []
  · rw [if_neg h]
    exact goodRun_bind (goodRun_hsFetch _ _) (fun data => goodRun_pure _)

theorem goodRun_getDealRun (env : Env) : GoodRun (getDealRun env) :=
  goodRun_hsFetch env.dealResp "deals/dealId"

theorem goodRun_getContactsRun (env : Env) (fuel : Nat) : GoodRun (getContactsRun env fuel) :=
  goodRun_bind (goodRun_getAssociations _ _ _) (fun _ => goodRun_getObjectBatch _ _ _)

theorem goodRun_getCompaniesRun (env : Env) (fuel : Nat) : GoodRun (getCompaniesRun env fuel) :=
  goodRun_bind (goodRun_getAssociations _ _ _) (fun _ => goodRun_getObjectBatch _ _ _)

theorem goodRun_getAllEngagementsLoop (env : Env) (fuel : Nat) :
    ∀ cfg : List (String × List String), GoodRun (getAllEngagementsLoop env fuel cfg) := by
  intro cfg
  induction cfg with
  | nil => exact goodRun_pure []
  | cons c rest ih =>
    obtain ⟨engType, props⟩ := c
    apply goodRun_bind (goodRun_getAssociations _ _ _)
    intro associations
    apply goodRun_bind
    · by_cases h : (edgeIds associations).isEmpty
      · rw [if_pos h]; exact goodRun_pure []
      · rw [if_neg h]
        exact goodRun_bind (goodRun_getObjectBatch _ _ _) (fun details => goodRun_pure _)
    · intro tagged
      exact goodRun_bind ih (fun more => goodRun_pure _)

theorem goodRun_assembleDocument (env : Env) (fuel : Nat) :
    GoodRun (assembleDocument env fuel) :=
  goodRun_bind (goodRun_getDealRun env) (fun _ =>
    goodRun_bind (goodRun_getContactsRun env fuel) (fun _ =>
      goodRun_bind (goodRun_getCompaniesRun env fuel) (fun _ =>
        goodRun_bind (goodRun_getAllEngagementsLoop env fuel engagementConfig)
          (fun _ => goodRun_pure _))))

/-- C2: in any document-assembly run, as soon as any endpoint returns a
non-success response the run stops at that very response — every earlier
fetch was ok, nothing is fetched afterwards (in particular no retry) — and
the result is the fetch error carrying that status: no document (partial or
otherwise) is produced. -/
theorem assembleDocument_aborts_on_failure (env : Env) (fuel : Nat)
    (h : ∃ ev ∈ (assembleDocument env fuel []).2, ev.ok = false) :
    ∃ pre bad, (assembleDocument env fuel []).2 = pre ++ [bad] ∧
      okEvents pre ∧ bad.ok = false ∧
      (assembleDocument env fuel []).1 = Except.error (errMsg bad.status) := by
  obtain ⟨evs, htr, hok, herr⟩ := goodRun_assembleDocument env fuel []
  have htr2 : (assembleDocument env fuel []).2 = evs := by simpa using htr
  obtain ⟨ev, hev, hevnotok⟩ := h
  rw [htr2] at hev
  cases hres : (assembleDocument env fuel []).1 with
  | ok doc =>
    exact absurd (hok ⟨doc, hres⟩ ev hev) (by simp [hevnotok])
  | error e =>
    rcases herr e hres with ⟨hokevs, _⟩ | ⟨pre, bad, hsplit, hokpre, hbad, he⟩
    · exact absurd (hokevs ev hev) (by simp [hevnotok])
    · exact ⟨pre, bad, by rw [htr2, hsplit], hokpre, hbad, by rw [he]⟩

/-- C2, witness: with the deal endpoint answering 500, the assembly makes
exactly that one request, surfaces `HubSpot API error: 500`, and produces no
document. -/
theorem assembleDocument_aborts_on_failure_witness :
    (∃ ev ∈ (assembleDocument
        ⟨{ ok := false, status := 500, body := {} }, [],
         fun _ => { ok := true, status := 200, body := {} }⟩ 1 []).2, ev.ok = false) ∧
    (∃ pre bad, (assembleDocument
        ⟨{ ok := false, status := 500, body := {} }, [],
         fun _ => { ok := true, status := 200, body := {} }⟩ 1 []).2 = pre ++ [bad] ∧
      okEvents pre ∧ bad.ok = false ∧
      (assembleDocument
        ⟨{ ok := false, status := 500, body := {} }, [],
         fun _ => { ok := true, status := 200, body := {} }⟩ 1 []).1 =
        Except.error (errMsg bad.status)) := by
  refine ⟨⟨⟨"deals/dealId", false, 500⟩, by decide, rfl⟩, ?_⟩
  exact assembleDocument_aborts_on_failure _ 1
    ⟨⟨"deals/dealId", false, 500⟩, by decide, rfl⟩

end Sidepanel
